import Mathlib

/-!
Shallow embedding of the Playwright network-interception cache layer
implemented (identically, three times) in tests/amazon-optimized.spec.js,
outside-files/tests/wikipedia-optimized.spec.js and
outside-files/tests/airbnb-optimized.spec.js.  The amazon variant is the
one cited by each claim and is the one transcribed here.

Conventions of the embedding:
* machine integers are Nat (all counters in the source only grow);
* response payload bytes are a List Nat with values below 256
  (Node Buffer contents);
* the base-64 codec used by the source (bodyBuffer.toString with the
  base64 encoding, and Buffer.from of the stored text) is implemented
  concretely below;
* the JS object httpCache is an insertion-ordered association list with
  unique keys: assignment to an existing key updates it in place,
  assignment to a new key appends, delete removes the key;
* the Map pendingRequests is represented by the list of its keys plus,
  per settled fetch, the promise value it delivered;
* JSON.stringify byte length is modelled structurally (ASCII content,
  no escape-needing characters) by cacheSizeBytes; the source compares
  megabytes (bytes / 1048576 against MAX_CACHE_SIZE_MB), an exact
  rational rescaling of the byte comparison used here.
-/

namespace PWCache

/-- The base-64 alphabet, index 0 to 63, as used by Node Buffer. -/
def b64alpha : List Char :=
  ['A','B','C','D','E','F','G','H','I','J','K','L','M',
   'N','O','P','Q','R','S','T','U','V','W','X','Y','Z',
   'a','b','c','d','e','f','g','h','i','j','k','l','m',
   'n','o','p','q','r','s','t','u','v','w','x','y','z',
   '0','1','2','3','4','5','6','7','8','9','+','/']

/-- Character of a six-bit group. -/
def b64chr (n : Nat) : Char := b64alpha.getD n 'A'

/-- Six-bit group of an alphabet character. -/
def b64idx (c : Char) : Nat := b64alpha.indexOf c

/-- Base-64 encoding of a byte sequence, with padding, as produced by
bodyBuffer.toString in the source. -/
def encodeB64 : List Nat → List Char
  | [] => []
  | [a] => [b64chr (a / 4), b64chr (a % 4 * 16), '=', '=']
  | [a, b] => [b64chr (a / 4), b64chr (a % 4 * 16 + b / 16), b64chr (b % 16 * 4), '=']
  | a :: b :: c :: rest =>
    b64chr (a / 4) :: b64chr (a % 4 * 16 + b / 16) ::
    b64chr (b % 16 * 4 + c / 64) :: b64chr (c % 64) :: encodeB64 rest

/-- Base-64 decoding of a stored text back to bytes, as performed by
Buffer.from of the stored body in the source. -/
def decodeB64 : List Char → List Nat
  | c1 :: c2 :: c3 :: c4 :: rest =>
    let s1 := b64idx c1
    let s2 := b64idx c2
    let b1 := s1 * 4 + s2 / 16
    if c3 = '=' then [b1]
    else
      let s3 := b64idx c3
      let b2 := s2 % 16 * 16 + s3 / 4
      if c4 = '=' then [b1, b2]
      else
        let s4 := b64idx c4
        b1 :: b2 :: (s3 % 4 * 64 + s4) :: decodeB64 rest
  | _ => []

def containsSeg (pat : List Char) : List Char → Bool
  | [] => pat.isEmpty
  | c :: t => pat.isPrefixOf (c :: t) || containsSeg pat t

/-- Case-sensitive substring test, JS url.includes(pat). -/
def hasSub (hay pat : String) : Bool := containsSeg pat.toList hay.toList

/-- Case-insensitive substring test, modelling a test of the regex
alternation of literal pattern pieces with the i flag. -/
def hasSubCI (hay pat : String) : Bool :=
  containsSeg (pat.toList.map Char.toLower) (hay.toList.map Char.toLower)

/-- JS url.startsWith(pat) (case-sensitive). -/
def startsWithL (s pat : String) : Bool := pat.toList.isPrefixOf s.toList

/-- Source: the isAuthLike test of the route handler, the two regexes
joined by an or. -/
def isAuthLike (url : String) : Bool :=
  hasSubCI url "/login" || hasSubCI url "/signin" || hasSubCI url "/logout" ||
  hasSubCI url "/auth" ||
  hasSubCI url "token=" || hasSubCI url "session=" || hasSubCI url "auth="

/-- Source: the isDynamic test of the amazon route handler. -/
def isDynamic (url : String) : Bool :=
  hasSubCI url "/api/" || hasSubCI url "suggestions" || hasSubCI url "search" ||
  hasSubCI url "recommendations"

/-- Source: the resource-type filter of the route handler. -/
def isBlockedResourceType (rt : String) : Bool :=
  rt == "image" || rt == "stylesheet" || rt == "font" || rt == "media"

/-- The BLOCKED_DOMAINS constant of the source. -/
def BLOCKED_DOMAINS : List String :=
  ["google-analytics.com", "googletagmanager.com", "analytics.google.com",
   "doubleclick.net", "googleadservices.com", "facebook.com/tr",
   "facebook.net", "scorecardresearch.com", "quantserve.com",
   "adservice.google", "googlesyndication.com", "advertising.com",
   "adform.net", "adsafeprotected.com", "adnxs.com", "amazon-adsystem.com",
   "bing.com/analytics", "hotjar.com", "mixpanel.com", "segment.io",
   "newrelic.com", "optimizely.com", "fullstory.com", "mouseflow.com",
   "crazyegg.com", "clarity.microsoft.com"]

/-- One value of the httpCache object: a cached response.  The body field
holds the base-64 text exactly as stored by the source. -/
structure CacheEntry where
  status : Nat
  headers : List (String × String)
  body : List Char
  lastAccess : Nat
deriving DecidableEq

/-- The httpCache object: insertion-ordered association list with unique
keys (a JS object). -/
abbrev Cache := List (String × CacheEntry)

/-- Association-list lookup, httpCache[key]. -/
def lookup : Cache → String → Option CacheEntry
  | [], _ => none
  | (k, e) :: t, key => if k = key then some e else lookup t key

/-- Assignment httpCache[key] = entry: update in place when the key
exists, append otherwise (JS object insertion order). -/
def setEntry : Cache → String → CacheEntry → Cache
  | [], key, e => [(key, e)]
  | (k, e0) :: t, key, e =>
      if k = key then (key, e) :: t else (k, e0) :: setEntry t key e

/-- The statement delete httpCache[key]. -/
def delEntry (c : Cache) (key : String) : Cache :=
  c.filter fun p => !(p.1 == key)

/-- Decimal digit count of a number, the printed length of a JSON
numeric field.  The first argument is fuel, instantiated to the number
itself, so the definition is structural. -/
def numSizeFuel : Nat → Nat → Nat
  | 0, _ => 1
  | fuel + 1, n => if n < 10 then 1 else 1 + numSizeFuel fuel (n / 10)

def numSize (n : Nat) : Nat := numSizeFuel n n

/-- Length of a comma-joined list of item lengths. -/
def joinSize : List Nat → Nat
  | [] => 0
  | [x] => x
  | x :: xs => x + 1 + joinSize xs

/-- Printed length of a JSON string (ASCII, no escapes): quotes plus
content. -/
def jsonStrSize (s : String) : Nat := s.length + 2

/-- Printed length of one httpCache entry under JSON.stringify. -/
def jsonEntrySize (e : CacheEntry) : Nat :=
  2 + (jsonStrSize "status" + 1 + numSize e.status)
    + 1 + (jsonStrSize "headers" + 1 +
            (2 + joinSize (e.headers.map fun p => jsonStrSize p.1 + 1 + jsonStrSize p.2)))
    + 1 + (jsonStrSize "body" + 1 + (e.body.length + 2))
    + 1 + (jsonStrSize "lastAccess" + 1 + numSize e.lastAccess)

/-- Source getCacheSizeMB, kept in bytes: Buffer.byteLength of
JSON.stringify(httpCache).  The source divides by 1048576 and compares
against MAX_CACHE_SIZE_MB; here the comparison is kept in bytes against
maxSizeBytes = MAX_CACHE_SIZE_MB * 1048576, an exact rescaling. -/
def cacheSizeBytes (c : Cache) : Nat :=
  2 + joinSize (c.map fun p => jsonStrSize p.1 + 1 + jsonEntrySize p.2)

/-- Recognized configuration of the layer (section 6 of the design). -/
structure Config where
  cacheEnabled : Bool
  dedupEnabled : Bool
  domainBlockingEnabled : Bool
  maxEntries : Nat
  maxSizeBytes : Nat
  blockedDomains : List String
deriving DecidableEq

/-- The eviction pressure condition of the source, evaluated both before
the loop and once per iteration: entry count at or above the entry
ceiling, or serialized size at or above the size ceiling. -/
def pressure (cfg : Config) (c : Cache) : Bool :=
  (decide (cfg.maxEntries ≤ c.length)) || (decide (cfg.maxSizeBytes ≤ cacheSizeBytes c))

/-- Comparison used by entries.sort in evictLRU: ascending lastAccess.
The sort is stable, as JS Array sort is. -/
def laLE (a b : String × CacheEntry) : Prop := a.2.lastAccess ≤ b.2.lastAccess

instance : DecidableRel laLE := fun a b => Nat.decLe a.2.lastAccess b.2.lastAccess

instance : IsTotal (String × CacheEntry) laLE :=
  ⟨fun a b => Nat.le_total a.2.lastAccess b.2.lastAccess⟩

instance : IsTrans (String × CacheEntry) laLE :=
  ⟨fun _ _ _ h1 h2 => Nat.le_trans h1 h2⟩

/-- The snapshot of Object.entries(httpCache) sorted ascending by
lastAccess (stable). -/
def sortedEntries (c : Cache) : Cache := List.insertionSort laLE c

/-- The eviction loop of evictLRU: walk the sorted snapshot keys, delete
while the re-evaluated pressure condition still holds, break otherwise.
Returns the new cache and the evicted count. -/
def evictLoop (cfg : Config) : List String → Cache → Cache × Nat
  | [], c => (c, 0)
  | k :: rest, c =>
    if pressure cfg c then
      let p := evictLoop cfg rest (delEntry c k)
      (p.1, p.2 + 1)
    else (c, 0)

/-- Cache-level evictLRU: no-op without pressure, otherwise the loop over
the lastAccess-sorted keys. -/
def evictCache (cfg : Config) (c : Cache) : Cache × Nat :=
  if pressure cfg c then evictLoop cfg ((sortedEntries c).map Prod.fst) c
  else (c, 0)

/-- Process-wide mutable state of the layer: the httpCache object, the
cacheStats, dedupStats and domainBlockStats counters, the cacheDirty
flag, the key set of the pendingRequests Map, and an instrumentation
counter of route.fetch invocations (the single injected upstream fetch
capability). -/
structure SysState where
  httpCache : Cache
  hits : Nat
  misses : Nat
  writes : Nat
  evictions : Nat
  duplicates : Nat
  unique : Nat
  blocked : Nat
  cacheDirty : Bool
  pending : List String
  fetchCount : Nat
deriving DecidableEq

/-- State-level evictLRU of the source: pressure check, sorted walk with
per-iteration recheck, then the evicted-count guard updating the
evictions counter and the dirty flag. -/
def evictLRU (cfg : Config) (s : SysState) : SysState :=
  let p := evictCache cfg s.httpCache
  if 0 < p.2 then
    { s with httpCache := p.1, evictions := s.evictions + p.2, cacheDirty := true }
  else { s with httpCache := p.1 }

/-- An intercepted request as seen by the route handler. -/
structure Request where
  url : String
  method : String
  resourceType : String
deriving DecidableEq

/-- Map.set on the pendingRequests key set: at most one entry per key. -/
def pendingInsert (key : String) (l : List String) : List String :=
  if l.contains key then l else l ++ [key]

/-- Map.delete on the pendingRequests key set. -/
def pendingErase (key : String) (l : List String) : List String :=
  l.filter fun x => !(x == key)

/-- Where the handler stands after its synchronous segment, which runs
without any suspension point: a terminal disposition, or a suspension
either joining an existing pending fetch or owning a fresh one. -/
inductive StartOutcome where
  | aborted
  | continued
  | fulfilled (status : Nat) (headers : List (String × String)) (body : List Nat)
  | waiting (key : String)
  | ownerFetching (key : String)
deriving DecidableEq

/-- Result of the real upstream fetch, with the payload as raw bytes. -/
structure FetchResponse where
  status : Nat
  headers : List (String × String)
  body : List Nat
deriving DecidableEq

/-- The route handler from its entry to its first suspension point,
transcribed from the page.route callback: resource-type abort, domain
abort, classification, cache-hit fulfill, dedup join, or owner
registration.  In the owner branch the async fetch closure is entered up
to its first await and the pendingRequests.set runs, all before any
suspension, so the whole branch is one atomic step of the cooperative
scheduler; entering the closure invokes route.fetch, counted in
fetchCount. -/
def routeStart (cfg : Config) (now : Nat) (req : Request) (s : SysState) :
    SysState × StartOutcome :=
  if isBlockedResourceType req.resourceType then (s, .aborted)
  else if cfg.domainBlockingEnabled && cfg.blockedDomains.any (fun d => hasSub req.url d) then
    ({ s with blocked := s.blocked + 1 }, .aborted)
  else if cfg.cacheEnabled && (req.method == "GET")
          && !(startsWithL req.url "data:" || startsWithL req.url "blob:")
          && !(isAuthLike req.url) && !(isDynamic req.url) then
    match lookup s.httpCache req.url with
    | some cached =>
        ({ s with httpCache := setEntry s.httpCache req.url { cached with lastAccess := now },
                  hits := s.hits + 1 },
         .fulfilled cached.status cached.headers (decodeB64 cached.body))
    | none =>
        if cfg.dedupEnabled && s.pending.contains req.url then
          ({ s with duplicates := s.duplicates + 1 }, .waiting req.url)
        else
          ({ s with misses := s.misses + 1,
                    unique := s.unique + 1,
                    fetchCount := s.fetchCount + 1,
                    pending := pendingInsert req.url s.pending },
           .ownerFetching req.url)
  else (s, .continued)

/-- The async fetch closure from the moment route.fetch settles: none
models a falsy response.  On a falsy response the pending entry is
deleted and the promise resolves to null; on a response with status in
[200, 400) the cache is populated (evictLRU first, then insertion with
lastAccess = now, dirty flag set) and the pending entry deleted; on any
other status only the deletion happens.  The second component is the
value every awaiter of the shared promise receives. -/
def fetchSettle (cfg : Config) (now : Nat) (key : String)
    (fres : Option FetchResponse) (s : SysState) :
    SysState × Option FetchResponse :=
  match fres with
  | none => ({ s with pending := pendingErase key s.pending }, none)
  | some r =>
      let s1 :=
        if 200 ≤ r.status ∧ r.status < 400 then
          let se := evictLRU cfg s
          { se with
              httpCache := setEntry se.httpCache key
                { status := r.status, headers := r.headers,
                  body := encodeB64 r.body, lastAccess := now },
              cacheDirty := true }
        else s
      ({ s1 with pending := pendingErase key s1.pending }, some r)

/-- Terminal outcome of a request once its awaited promise value is
known. -/
inductive FinalOutcome where
  | continuedUnmodified
  | fulfilled (status : Nat) (headers : List (String × String)) (body : List Nat)
  | nullDereference
deriving DecidableEq

/-- Continuation of the owner after awaiting its own requestPromise: the
source checks the value and falls back to route.continue when it is
null. -/
def ownerFinish (v : Option FetchResponse) : FinalOutcome :=
  match v with
  | none => .continuedUnmodified
  | some r => .fulfilled r.status r.headers r.body

/-- Continuation of a waiter after awaiting the shared promise: the
source reads pendingResponse.status, pendingResponse.headers and
pendingResponse.body with no null check, so a null promise value is a
TypeError dereference, not a fallback. -/
def waiterFinish (v : Option FetchResponse) : FinalOutcome :=
  match v with
  | none => .nullDereference
  | some r => .fulfilled r.status r.headers r.body

/-- N back-to-back synchronous handler segments for the same request:
the cooperative interleaving of N concurrent identical requests, each
running atomically to its first suspension point. -/
def runStarts (cfg : Config) (now : Nat) (req : Request) :
    Nat → SysState → SysState × List StartOutcome
  | 0, s => (s, [])
  | n + 1, s =>
      let p := routeStart cfg now req s
      let q := runStarts cfg now req n p.1
      (q.1, p.2 :: q.2)

/-- writeCacheToDisk: a no-op unless dirty and enabled; otherwise the
whole httpCache object is serialized to the snapshot file, the dirty
flag cleared and the writes counter bumped.  The snapshot is modelled as
the parsed value the file holds (JSON.parse inverts JSON.stringify on
this string-keyed record shape). -/
def writeCacheToDisk (cfg : Config) (s : SysState) (snap : Option Cache) :
    SysState × Option Cache :=
  if !s.cacheDirty || !cfg.cacheEnabled then (s, snap)
  else ({ s with cacheDirty := false, writes := s.writes + 1 }, some s.httpCache)

/-- Per-entry transformation of the load loop: spread the stored value
and default a falsy lastAccess to Date.now(). -/
def loadEntry (now : Nat) (e : CacheEntry) : CacheEntry :=
  { e with lastAccess := if e.lastAccess == 0 then now else e.lastAccess }

/-- The cache load block run at process start: when enabled and a
snapshot exists, copy every snapshot entry into httpCache with the
lastAccess default, then run evictLRU. -/
def loadCache (cfg : Config) (now : Nat) (snap : Option Cache) (s : SysState) : SysState :=
  if cfg.cacheEnabled then
    match snap with
    | some m =>
        evictLRU cfg
          { s with httpCache :=
              m.foldl (fun c kv => setEntry c kv.1 (loadEntry now kv.2)) s.httpCache }
    | none => s
  else s

/-- The classification guard of the cacheable branch, bundled: not
blocked by resource type, not blocked by domain, cache enabled, GET, not
an inline scheme, not auth-like, not volatile. -/
def cacheableReq (cfg : Config) (req : Request) : Bool :=
  !(isBlockedResourceType req.resourceType) &&
  !(cfg.domainBlockingEnabled && cfg.blockedDomains.any (fun d => hasSub req.url d)) &&
  (cfg.cacheEnabled && (req.method == "GET")
      && !(startsWithL req.url "data:" || startsWithL req.url "blob:")
      && !(isAuthLike req.url) && !(isDynamic req.url))

/-- Default configuration: cache on, dedup on, domain blocking on, 100
entries, 50 MB (52428800 bytes), the BLOCKED_DOMAINS list. -/
def cfg0 : Config :=
  { cacheEnabled := true, dedupEnabled := true, domainBlockingEnabled := true,
    maxEntries := 100, maxSizeBytes := 52428800, blockedDomains := BLOCKED_DOMAINS }

/-- A cacheable concrete request against the amazon target. -/
def req0 : Request :=
  { url := "https://www.amazon.com/gp/bestsellers",
    method := "GET", resourceType := "document" }

/-- Fresh process state: empty cache, zero counters, clean, no pending
fetches. -/
def st0 : SysState :=
  { httpCache := [], hits := 0, misses := 0, writes := 0, evictions := 0,
    duplicates := 0, unique := 0, blocked := 0, cacheDirty := false,
    pending := [], fetchCount := 0 }

/-- A request of a blocked resource type (image). -/
def reqImage : Request :=
  { url := "https://www.amazon.com/img/logo.png",
    method := "GET", resourceType := "image" }

/-- A tracker request: URL containing a BLOCKED_DOMAINS substring, with a
non-blocked resource type. -/
def reqTracker : Request :=
  { url := "https://stats.doubleclick.net/collect?id=7",
    method := "GET", resourceType := "xhr" }

/-- An authentication-like request (signin path segment). -/
def reqAuth : Request :=
  { url := "https://www.amazon.com/ap/signin?openid.mode=checkid",
    method := "GET", resourceType := "document" }

/-- A successful upstream response with a small ASCII payload. -/
def res0 : FetchResponse :=
  { status := 200, headers := [("content-type", "text/html")],
    body := [72, 101, 108, 108, 111] }

/-- Cached entries with lastAccess 10, 20 and 30 for the eviction
example. -/
def entryAt (t : Nat) : CacheEntry :=
  { status := 200, headers := [("content-type", "text/html")],
    body := ['Q', 'Q', '=', '='], lastAccess := t }

/-- A three-entry cache holding access times 20, 10, 30 in insertion
order. -/
def cacheC6 : Cache :=
  [("https://t/b", entryAt 20), ("https://t/a", entryAt 10), ("https://t/c", entryAt 30)]

/-- Configuration with an entry ceiling of 3, so that cacheC6 needs to
evict exactly one entry. -/
def cfgC6 : Config := { cfg0 with maxEntries := 3 }

/-- Configuration with an entry ceiling of 1 for the round-trip
counterexample. -/
def cfgC9 : Config := { cfg0 with maxEntries := 1 }

/-- A dirty single-entry state for the round-trip counterexample. -/
def stC9 : SysState :=
  { st0 with httpCache := [("https://t/a", entryAt 10)], cacheDirty := true }

/-- A state whose cache already holds the auth-like URL, for the
never-served-from-cache property. -/
def stAuthCached : SysState :=
  { st0 with httpCache := [(reqAuth.url, entryAt 10)] }

/-- A state whose cache already holds req0, for the hit-path frame
property. -/
def stHit : SysState :=
  { st0 with httpCache := [(req0.url, entryAt 10)] }

/-- A state with a pending fetch registered for req0. -/
def stPend : SysState :=
  { st0 with pending := [req0.url] }

/-- A dirty two-entry state, far below both ceilings, for the round-trip
property. -/
def stRT : SysState :=
  { st0 with httpCache := [("https://t/a", entryAt 10), ("https://t/b", entryAt 20)],
             cacheDirty := true }

theorem b64idx_b64chr : ∀ s, s < 64 → b64idx (b64chr s) = s := by decide

theorem b64chr_ne_pad : ∀ s, s < 64 → b64chr s ≠ '=' := by decide

theorem decodeB64_encodeB64 :
    ∀ l : List Nat, (∀ x ∈ l, x < 256) → decodeB64 (encodeB64 l) = l := by
  intro l
  induction l using encodeB64.induct with
  | case1 =>
    intro _; rfl
  | case2 a =>
    intro h
    have ha : a < 256 := h a (by simp)
    have h1 : a / 4 < 64 := by omega
    have h2 : a % 4 * 16 < 64 := by omega
    have e1 : a / 4 * 4 + a % 4 * 16 / 16 = a := by omega
    simp only [encodeB64, decodeB64, b64idx_b64chr _ h1, b64idx_b64chr _ h2,
      reduceIte, e1]
  | case3 a b =>
    intro h
    have ha : a < 256 := h a (by simp)
    have hb : b < 256 := h b (by simp)
    have h1 : a / 4 < 64 := by omega
    have h2 : a % 4 * 16 + b / 16 < 64 := by omega
    have h3 : b % 16 * 4 < 64 := by omega
    have e1 : a / 4 * 4 + (a % 4 * 16 + b / 16) / 16 = a := by omega
    have e2 : (a % 4 * 16 + b / 16) % 16 * 16 + b % 16 * 4 / 4 = b := by omega
    simp only [encodeB64, decodeB64, b64idx_b64chr _ h1, b64idx_b64chr _ h2,
      b64idx_b64chr _ h3, if_neg (b64chr_ne_pad _ h3), reduceIte, e1, e2]
  | case4 a b c rest ih =>
    intro h
    have ha : a < 256 := h a (by simp)
    have hb : b < 256 := h b (by simp)
    have hc : c < 256 := h c (by simp)
    have h1 : a / 4 < 64 := by omega
    have h2 : a % 4 * 16 + b / 16 < 64 := by omega
    have h3 : b % 16 * 4 + c / 64 < 64 := by omega
    have h4 : c % 64 < 64 := by omega
    have hrest : ∀ x ∈ rest, x < 256 := by
      intro x hx; exact h x (by simp [hx])
    have e1 : a / 4 * 4 + (a % 4 * 16 + b / 16) / 16 = a := by omega
    have e2 : (a % 4 * 16 + b / 16) % 16 * 16 + (b % 16 * 4 + c / 64) / 4 = b := by omega
    have e3 : (b % 16 * 4 + c / 64) % 4 * 64 + c % 64 = c := by omega
    simp only [encodeB64, decodeB64, b64idx_b64chr _ h1, b64idx_b64chr _ h2,
      b64idx_b64chr _ h3, b64idx_b64chr _ h4,
      if_neg (b64chr_ne_pad _ h3), if_neg (b64chr_ne_pad _ h4), e1, e2, e3]
    rw [ih hrest]

/-- Contiguous-segment containment on character lists. -/
example : cacheableReq cfg0 req0 = true := by decide
example : isAuthLike "https://www.amazon.com/ap/SIGNIN?x=1" = true := by decide
example : isDynamic "https://www.amazon.com/s?k=laptop&ref=search" = true := by decide
example : hasSub "https://stats.google-analytics.com/collect" "google-analytics.com" = true := by decide

/-! Association-list lemmas for the httpCache object. -/

theorem lookup_setEntry_self (c : Cache) (k : String) (e : CacheEntry) :
    lookup (setEntry c k e) k = some e := by
  induction c with
  | nil => simp [setEntry, lookup]
  | cons p t ih =>
    by_cases h : p.1 = k
    · simp [setEntry, lookup, h]
    · simp [setEntry, lookup, h, ih]

theorem lookup_setEntry_ne (c : Cache) (k k' : String) (e : CacheEntry)
    (h : k' ≠ k) : lookup (setEntry c k e) k' = lookup c k' := by
  have hne : k ≠ k' := fun hh => h hh.symm
  induction c with
  | nil => simp [setEntry, lookup, hne]
  | cons p t ih =>
    by_cases hp : p.1 = k
    · subst hp
      simp [setEntry, lookup, hne]
    · simp only [setEntry, if_neg hp]
      by_cases hq : p.1 = k'
      · simp [lookup, hq]
      · simp [lookup, hq, ih]

theorem length_setEntry_le (c : Cache) (k : String) (e : CacheEntry) :
    (setEntry c k e).length ≤ c.length + 1 := by
  induction c with
  | nil => simp [setEntry]
  | cons p t ih =>
    by_cases h : p.1 = k
    · simp [setEntry, h]
    · simp only [setEntry, if_neg h, List.length_cons]
      omega

theorem setEntry_of_not_mem (c : Cache) (k : String) (e : CacheEntry)
    (h : lookup c k = none) : setEntry c k e = c ++ [(k, e)] := by
  induction c with
  | nil => simp [setEntry]
  | cons p t ih =>
    by_cases hp : p.1 = k
    · simp [lookup, hp] at h
    · simp only [lookup, if_neg hp] at h
      simp [setEntry, hp, ih h]

/-! Frame lemmas: evictLRU touches only httpCache, evictions and
cacheDirty. -/

theorem evictLRU_frame (cfg : Config) (s : SysState) :
    (evictLRU cfg s).hits = s.hits ∧ (evictLRU cfg s).misses = s.misses ∧
    (evictLRU cfg s).writes = s.writes ∧
    (evictLRU cfg s).duplicates = s.duplicates ∧
    (evictLRU cfg s).unique = s.unique ∧ (evictLRU cfg s).blocked = s.blocked ∧
    (evictLRU cfg s).pending = s.pending ∧
    (evictLRU cfg s).fetchCount = s.fetchCount := by
  simp only [evictLRU]
  split <;> simp

/-! Path lemmas: the five mutually exclusive branches of the route
handler segment. -/

theorem routeStart_blockType (cfg : Config) (now : Nat) (req : Request) (s : SysState)
    (hrt : isBlockedResourceType req.resourceType = true) :
    routeStart cfg now req s = (s, .aborted) := by
  simp [routeStart, hrt]

theorem routeStart_blockDomain (cfg : Config) (now : Nat) (req : Request) (s : SysState)
    (hrt : isBlockedResourceType req.resourceType = false)
    (hd : (cfg.domainBlockingEnabled &&
            cfg.blockedDomains.any (fun d => hasSub req.url d)) = true) :
    routeStart cfg now req s = ({ s with blocked := s.blocked + 1 }, .aborted) := by
  simp [routeStart, hrt, hd]

theorem routeStart_continue (cfg : Config) (now : Nat) (req : Request) (s : SysState)
    (hrt : isBlockedResourceType req.resourceType = false)
    (hd : (cfg.domainBlockingEnabled &&
            cfg.blockedDomains.any (fun d => hasSub req.url d)) = false)
    (hcc : (cfg.cacheEnabled && (req.method == "GET")
            && !(startsWithL req.url "data:" || startsWithL req.url "blob:")
            && !(isAuthLike req.url) && !(isDynamic req.url)) = false) :
    routeStart cfg now req s = (s, .continued) := by
  simp only [routeStart]
  rw [hrt, hd, hcc]
  simp

theorem routeStart_hit (cfg : Config) (now : Nat) (req : Request) (s : SysState)
    (e : CacheEntry) (hc : cacheableReq cfg req = true)
    (hhit : lookup s.httpCache req.url = some e) :
    routeStart cfg now req s =
      ({ s with httpCache := setEntry s.httpCache req.url { e with lastAccess := now },
                hits := s.hits + 1 },
       .fulfilled e.status e.headers (decodeB64 e.body)) := by
  simp only [cacheableReq, Bool.and_eq_true, Bool.not_eq_true'] at hc
  obtain ⟨h1, h2, h3⟩ := hc
  simp [routeStart, h1, h2, h3, hhit]

theorem routeStart_join (cfg : Config) (now : Nat) (req : Request) (s : SysState)
    (hc : cacheableReq cfg req = true)
    (hmiss : lookup s.httpCache req.url = none)
    (hd : cfg.dedupEnabled = true)
    (hp : s.pending.contains req.url = true) :
    routeStart cfg now req s =
      ({ s with duplicates := s.duplicates + 1 }, .waiting req.url) := by
  simp only [cacheableReq, Bool.and_eq_true, Bool.not_eq_true'] at hc
  obtain ⟨h1, h2, h3⟩ := hc
  have hp' : req.url ∈ s.pending := by simpa using hp
  simp [routeStart, h1, h2, h3, hmiss, hd, hp']

theorem routeStart_owner (cfg : Config) (now : Nat) (req : Request) (s : SysState)
    (hc : cacheableReq cfg req = true)
    (hmiss : lookup s.httpCache req.url = none)
    (hg : (cfg.dedupEnabled && s.pending.contains req.url) = false) :
    routeStart cfg now req s =
      ({ s with misses := s.misses + 1, unique := s.unique + 1,
                fetchCount := s.fetchCount + 1,
                pending := pendingInsert req.url s.pending },
       .ownerFetching req.url) := by
  simp only [cacheableReq, Bool.and_eq_true, Bool.not_eq_true'] at hc
  obtain ⟨h1, h2, h3⟩ := hc
  simp [routeStart, h1, h2, h3, hmiss]
  intro hdt hmem
  have hmem' : s.pending.contains req.url = true := by simpa using hmem
  rw [hdt, hmem'] at hg
  simp at hg

theorem pendingErase_not_contains (k : String) (l : List String) :
    (pendingErase k l).contains k = false := by
  simp [pendingErase]

/-- C5 counterexample: a request of blocked resource type image is
aborted, yet the blocked counter stays at zero — the claim that blocked
increments by exactly one for every Block-classified request fails on
the resource-type branch, which aborts before any counter update. -/
theorem C5_blocked_counter_counterexample :
    (routeStart cfg0 3 reqImage st0).2 = StartOutcome.aborted ∧
    ((routeStart cfg0 3 reqImage st0).1).blocked = 0 := by decide

/-- C5 (amended): a request of blocked resource type is aborted with the
whole state unchanged (zero upstream calls, zero cache interaction, and
no blocked increment); a request passing the resource-type filter whose
URL contains a configured blocked-domain substring, with domain blocking
enabled, is aborted with the blocked counter incremented by exactly one
and no other state change. -/
theorem C5_block_disposition (cfg : Config) (now : Nat) (req : Request) (s : SysState) :
    (isBlockedResourceType req.resourceType = true →
      routeStart cfg now req s = (s, .aborted)) ∧
    (isBlockedResourceType req.resourceType = false →
      (cfg.domainBlockingEnabled &&
        cfg.blockedDomains.any (fun d => hasSub req.url d)) = true →
      routeStart cfg now req s = ({ s with blocked := s.blocked + 1 }, .aborted)) :=
  ⟨fun h => routeStart_blockType cfg now req s h,
   fun h1 h2 => routeStart_blockDomain cfg now req s h1 h2⟩

/-- C5 witness: the image request aborts leaving the fresh state intact;
the tracker request aborts with blocked bumped from 0 to 1. -/
theorem C5_block_disposition_witness :
    routeStart cfg0 3 reqImage st0 = (st0, .aborted) ∧
    routeStart cfg0 3 reqTracker st0 = ({ st0 with blocked := st0.blocked + 1 }, .aborted) :=
  ⟨(C5_block_disposition cfg0 3 reqImage st0).1 (by decide),
   (C5_block_disposition cfg0 3 reqTracker st0).2 (by decide) (by decide)⟩

/-- C8: a GET request whose URL matches the authentication-like or the
volatility pattern is never answered from the cache — the handler falls
through to route.continue with the state untouched, even when the cache
already stores an entry under that URL (the state s is arbitrary, so in
particular its cache may contain the key): a pass-through network call
occurs and no cache read happens. -/
theorem C8_auth_dynamic_never_cached (cfg : Config) (now : Nat) (req : Request)
    (s : SysState)
    (hrt : isBlockedResourceType req.resourceType = false)
    (hd : (cfg.domainBlockingEnabled &&
            cfg.blockedDomains.any (fun d => hasSub req.url d)) = false)
    (had : isAuthLike req.url = true ∨ isDynamic req.url = true) :
    routeStart cfg now req s = (s, .continued) := by
  apply routeStart_continue cfg now req s hrt hd
  rcases had with h | h <;> simp [h]

/-- C8 witness: the signin URL is pre-populated in the cache, yet the
handler passes the request through unmodified. -/
theorem C8_auth_dynamic_never_cached_witness :
    lookup stAuthCached.httpCache reqAuth.url = some (entryAt 10) ∧
    routeStart cfg0 7 reqAuth stAuthCached = (stAuthCached, .continued) :=
  ⟨by decide,
   C8_auth_dynamic_never_cached cfg0 7 reqAuth stAuthCached (by decide) (by decide)
     (Or.inl (by decide))⟩

/-- C3: whenever the upstream fetch for a key settles — with a failed
(null) response as well as with any real response — the pendingRequests
entry for that key is removed; after a failed fetch the cache is
unchanged, so a subsequent identical request finds neither a cache entry
nor a pending entry and becomes the owner of a fresh upstream attempt
(fetch counter incremented), rather than joining a stale entry or
hanging. -/
theorem C3_settle_frees_slot (cfg : Config) (req : Request) (s : SysState)
    (fres : Option FetchResponse) (now1 now2 : Nat)
    (hc : cacheableReq cfg req = true) :
    ((fetchSettle cfg now1 req.url fres s).1.pending.contains req.url = false) ∧
    (fres = none →
      lookup (fetchSettle cfg now1 req.url fres s).1.httpCache req.url =
        lookup s.httpCache req.url) ∧
    (fres = none → lookup s.httpCache req.url = none →
      (routeStart cfg now2 req (fetchSettle cfg now1 req.url none s).1).2 =
        .ownerFetching req.url ∧
      (routeStart cfg now2 req (fetchSettle cfg now1 req.url none s).1).1.fetchCount =
        s.fetchCount + 1) := by
  refine ⟨?_, ?_, ?_⟩
  · cases fres with
    | none => exact pendingErase_not_contains req.url s.pending
    | some r =>
      simp only [fetchSettle]
      exact pendingErase_not_contains req.url _
  · intro h; subst h; rfl
  · intro _ hmiss
    have hpc : (fetchSettle cfg now1 req.url none s).1.pending.contains req.url = false := by
      simp only [fetchSettle]
      exact pendingErase_not_contains req.url s.pending
    have hg : (cfg.dedupEnabled &&
        (fetchSettle cfg now1 req.url none s).1.pending.contains req.url) = false := by
      rw [hpc]; simp
    have h2 := routeStart_owner cfg now2 req (fetchSettle cfg now1 req.url none s).1 hc
      (by simpa only [fetchSettle] using hmiss) hg
    rw [h2]
    exact ⟨rfl, rfl⟩

/-- C3 witness: a pending fetch for req0 settles with a null response;
the slot is freed and the next identical request performs a fresh
upstream fetch. -/
theorem C3_settle_frees_slot_witness :
    cacheableReq cfg0 req0 = true ∧
    ((fetchSettle cfg0 4 req0.url none stPend).1.pending.contains req0.url = false) ∧
    ((routeStart cfg0 5 req0 (fetchSettle cfg0 4 req0.url none stPend).1).2 =
      .ownerFetching req0.url ∧
     (routeStart cfg0 5 req0 (fetchSettle cfg0 4 req0.url none stPend).1).1.fetchCount =
      stPend.fetchCount + 1) := by
  have h := C3_settle_frees_slot cfg0 req0 stPend none 4 5 (by decide)
  exact ⟨by decide, h.1, h.2.2 rfl rfl⟩

/-- C4 failing scenario, evaluated on the code: two concurrent identical
cacheable requests; the first becomes the owner, the second a waiter on
the shared promise.  The owner fetch settles with a null (failed)
response, so the shared promise value is null.  The owner continuation
checks for null and falls back to route.continue; the waiter
continuation dereferences the null value (pendingResponse.status) with
no check — a TypeError, not the unmodified forward that the claim and
the design describe. -/
theorem C4_waiter_null_dereference :
    (runStarts cfg0 3 req0 2 st0).2 =
      [StartOutcome.ownerFetching req0.url, StartOutcome.waiting req0.url] ∧
    (fetchSettle cfg0 4 req0.url none (runStarts cfg0 3 req0 2 st0).1).2 = none ∧
    ownerFinish none = FinalOutcome.continuedUnmodified ∧
    waiterFinish none = FinalOutcome.nullDereference ∧
    waiterFinish none ≠ FinalOutcome.continuedUnmodified := by decide

/-- C10: on a cache hit the only store mutation is the hit entry
lastAccess field: the fulfilled payload is the decoded stored entry,
every other key maps to its previous entry, the misses, writes,
evictions, duplicates, unique and blocked counters, the dirty flag, the
pending set and the fetch counter are unchanged (hits increments by
one), and when the store was clean the following flush is a no-op, so
lastAccess updates caused solely by hits never reach the snapshot. -/
theorem C10_hit_only_touches_lastAccess (cfg : Config) (now : Nat) (req : Request)
    (s : SysState) (snap : Option Cache) (e : CacheEntry)
    (hc : cacheableReq cfg req = true)
    (hhit : lookup s.httpCache req.url = some e) :
    (routeStart cfg now req s).2 = .fulfilled e.status e.headers (decodeB64 e.body) ∧
    lookup (routeStart cfg now req s).1.httpCache req.url =
      some { e with lastAccess := now } ∧
    (∀ k, k ≠ req.url →
      lookup (routeStart cfg now req s).1.httpCache k = lookup s.httpCache k) ∧
    (routeStart cfg now req s).1.hits = s.hits + 1 ∧
    (routeStart cfg now req s).1.misses = s.misses ∧
    (routeStart cfg now req s).1.writes = s.writes ∧
    (routeStart cfg now req s).1.evictions = s.evictions ∧
    (routeStart cfg now req s).1.duplicates = s.duplicates ∧
    (routeStart cfg now req s).1.unique = s.unique ∧
    (routeStart cfg now req s).1.blocked = s.blocked ∧
    (routeStart cfg now req s).1.cacheDirty = s.cacheDirty ∧
    (routeStart cfg now req s).1.pending = s.pending ∧
    (routeStart cfg now req s).1.fetchCount = s.fetchCount ∧
    (s.cacheDirty = false →
      writeCacheToDisk cfg (routeStart cfg now req s).1 snap =
        ((routeStart cfg now req s).1, snap)) := by
  rw [routeStart_hit cfg now req s e hc hhit]
  refine ⟨rfl, ?_, ?_, rfl, rfl, rfl, rfl, rfl, rfl, rfl, rfl, rfl, rfl, ?_⟩
  · exact lookup_setEntry_self s.httpCache req.url _
  · intro k hk
    exact lookup_setEntry_ne s.httpCache req.url k _ hk
  · intro hcd
    simp [writeCacheToDisk, hcd]

/-- C10 witness: a hit on the pre-populated store leaves the clean flag
clean and the subsequent flush untouched. -/
theorem C10_hit_only_touches_lastAccess_witness :
    ((routeStart cfg0 7 req0 stHit).2 =
      .fulfilled (entryAt 10).status (entryAt 10).headers (decodeB64 (entryAt 10).body) ∧
     (routeStart cfg0 7 req0 stHit).1.cacheDirty = stHit.cacheDirty ∧
     writeCacheToDisk cfg0 (routeStart cfg0 7 req0 stHit).1 none =
       ((routeStart cfg0 7 req0 stHit).1, none)) := by
  have h := C10_hit_only_touches_lastAccess cfg0 7 req0 stHit none (entryAt 10)
    (by decide) (by decide)
  obtain ⟨h1, _, _, _, _, _, _, _, _, _, h11, _, _, h14⟩ := h
  exact ⟨h1, h11, h14 rfl⟩

/-- C2: for a cacheable GET request, after a first request whose upstream
fetch succeeds with status in [200, 400), a second identical request is
answered from the cache with a byte-identical status, headers and body
(the stored base-64 text decodes back to the original payload bytes),
without invoking the upstream fetch capability (the fetch counter is
unchanged); the hit bumps hits by one and stamps the entry lastAccess
with the current time, and the first-request lookup miss incremented
misses by one. -/
theorem C2_second_request_hits (cfg : Config) (req : Request) (s : SysState)
    (r : FetchResponse) (now1 now2 now3 : Nat)
    (hc : cacheableReq cfg req = true)
    (hmiss : lookup s.httpCache req.url = none)
    (hg : (cfg.dedupEnabled && s.pending.contains req.url) = false)
    (hok : 200 ≤ r.status ∧ r.status < 400)
    (hbytes : ∀ x ∈ r.body, x < 256) :
    (routeStart cfg now1 req s).2 = .ownerFetching req.url ∧
    (routeStart cfg now1 req s).1.misses = s.misses + 1 ∧
    (routeStart cfg now3 req
        (fetchSettle cfg now2 req.url (some r) (routeStart cfg now1 req s).1).1).2 =
      .fulfilled r.status r.headers r.body ∧
    (routeStart cfg now3 req
        (fetchSettle cfg now2 req.url (some r) (routeStart cfg now1 req s).1).1).1.fetchCount =
      (fetchSettle cfg now2 req.url (some r) (routeStart cfg now1 req s).1).1.fetchCount ∧
    (routeStart cfg now3 req
        (fetchSettle cfg now2 req.url (some r) (routeStart cfg now1 req s).1).1).1.hits =
      (fetchSettle cfg now2 req.url (some r) (routeStart cfg now1 req s).1).1.hits + 1 ∧
    lookup (routeStart cfg now3 req
        (fetchSettle cfg now2 req.url (some r) (routeStart cfg now1 req s).1).1).1.httpCache
        req.url =
      some { status := r.status, headers := r.headers,
             body := encodeB64 r.body, lastAccess := now3 } := by
  have h1 := routeStart_owner cfg now1 req s hc hmiss hg
  have e2 : (routeStart cfg now1 req s).2 = .ownerFetching req.url := by rw [h1]
  have emiss : (routeStart cfg now1 req s).1.misses = s.misses + 1 := by rw [h1]
  have hset : lookup
      (fetchSettle cfg now2 req.url (some r) (routeStart cfg now1 req s).1).1.httpCache
      req.url =
      some { status := r.status, headers := r.headers,
             body := encodeB64 r.body, lastAccess := now2 } := by
    simp only [fetchSettle, if_pos hok]
    exact lookup_setEntry_self _ _ _
  have h3 := routeStart_hit cfg now3 req
    (fetchSettle cfg now2 req.url (some r) (routeStart cfg now1 req s).1).1
    { status := r.status, headers := r.headers,
      body := encodeB64 r.body, lastAccess := now2 } hc hset
  refine ⟨e2, emiss, ?_, ?_, ?_, ?_⟩
  · rw [h3]
    simp [decodeB64_encodeB64 r.body hbytes]
  · rw [h3]
  · rw [h3]
  · rw [h3]
    exact lookup_setEntry_self _ _ _

/-- C2 witness: req0 fetched once with res0, then requested again: the
second request is fulfilled with the original bytes and no further
upstream fetch. -/
theorem C2_second_request_hits_witness :
    (routeStart cfg0 1 req0 st0).2 = .ownerFetching req0.url ∧
    (routeStart cfg0 1 req0 st0).1.misses = st0.misses + 1 ∧
    (routeStart cfg0 3 req0
        (fetchSettle cfg0 2 req0.url (some res0) (routeStart cfg0 1 req0 st0).1).1).2 =
      .fulfilled res0.status res0.headers res0.body ∧
    (routeStart cfg0 3 req0
        (fetchSettle cfg0 2 req0.url (some res0) (routeStart cfg0 1 req0 st0).1).1).1.fetchCount =
      (fetchSettle cfg0 2 req0.url (some res0) (routeStart cfg0 1 req0 st0).1).1.fetchCount ∧
    (routeStart cfg0 3 req0
        (fetchSettle cfg0 2 req0.url (some res0) (routeStart cfg0 1 req0 st0).1).1).1.hits =
      (fetchSettle cfg0 2 req0.url (some res0) (routeStart cfg0 1 req0 st0).1).1.hits + 1 ∧
    lookup (routeStart cfg0 3 req0
        (fetchSettle cfg0 2 req0.url (some res0) (routeStart cfg0 1 req0 st0).1).1).1.httpCache
        req0.url =
      some { status := res0.status, headers := res0.headers,
             body := encodeB64 res0.body, lastAccess := 3 } :=
  C2_second_request_hits cfg0 req0 st0 res0 1 2 3 (by decide) (by decide) (by decide)
    (by decide) (by decide)

/-- Every further concurrent identical request, started while the key is
pending and uncached, takes the join branch: only duplicates grows, the
outcome list is all waiting. -/
theorem runStarts_all_join (cfg : Config) (now : Nat) (req : Request)
    (hc : cacheableReq cfg req = true) (hd : cfg.dedupEnabled = true) :
    ∀ (n : Nat) (s : SysState),
      lookup s.httpCache req.url = none →
      s.pending.contains req.url = true →
      runStarts cfg now req n s =
        ({ s with duplicates := s.duplicates + n },
         List.replicate n (.waiting req.url)) := by
  intro n
  induction n with
  | zero =>
    intro s _ _
    simp [runStarts]
  | succ n ih =>
    intro s hmiss hp
    have hj := routeStart_join cfg now req s hc hmiss hd hp
    simp only [runStarts]
    rw [hj]
    rw [ih { s with duplicates := s.duplicates + 1 } hmiss hp]
    have ha : s.duplicates + 1 + n = s.duplicates + (n + 1) := by omega
    simp [ha, List.replicate_succ]

/-- C1: N concurrent identical cacheable requests, all issued before any
response is known (the scheduler runs each synchronous handler segment
atomically, so the N segments execute back to back): exactly one
upstream fetch is issued (fetch counter up by one), the first request is
the unique owner (unique up by one) and the other N-1 join as waiters
(duplicates up by N-1); at every instant the pendingRequests registry
holds at most one entry for the key; and when the shared fetch settles
with a response, every waiter and the owner receive exactly that result. -/
theorem C1_dedup_concurrent (cfg : Config) (req : Request) (s : SysState)
    (now now2 : Nat) (r : FetchResponse) (N : Nat)
    (hc : cacheableReq cfg req = true)
    (hd : cfg.dedupEnabled = true)
    (hmiss : lookup s.httpCache req.url = none)
    (hnp : s.pending.contains req.url = false)
    (hN : 2 ≤ N) :
    (runStarts cfg now req N s).1.fetchCount = s.fetchCount + 1 ∧
    (runStarts cfg now req N s).1.unique = s.unique + 1 ∧
    (runStarts cfg now req N s).1.duplicates = s.duplicates + (N - 1) ∧
    (runStarts cfg now req N s).2 =
      .ownerFetching req.url :: List.replicate (N - 1) (.waiting req.url) ∧
    (∀ i, (runStarts cfg now req i s).1.pending.count req.url ≤ 1) ∧
    (fetchSettle cfg now2 req.url (some r) (runStarts cfg now req N s).1).2 = some r ∧
    waiterFinish (some r) = .fulfilled r.status r.headers r.body ∧
    ownerFinish (some r) = .fulfilled r.status r.headers r.body := by
  have hnotmem : req.url ∉ s.pending := by simpa using hnp
  have ho := routeStart_owner cfg now req s hc hmiss (by rw [hnp]; simp)
  have hmem : (pendingInsert req.url s.pending).contains req.url = true := by
    simp [pendingInsert, hnotmem]
  have hall : ∀ m, runStarts cfg now req (m + 1) s =
      ({ s with misses := s.misses + 1, unique := s.unique + 1,
                fetchCount := s.fetchCount + 1,
                pending := pendingInsert req.url s.pending,
                duplicates := s.duplicates + m },
       .ownerFetching req.url :: List.replicate m (.waiting req.url)) := by
    intro m
    simp only [runStarts]
    rw [ho]
    dsimp only
    rw [runStarts_all_join cfg now req hc hd m
      { s with misses := s.misses + 1, unique := s.unique + 1,
               fetchCount := s.fetchCount + 1,
               pending := pendingInsert req.url s.pending } hmiss hmem]
  obtain ⟨n, rfl⟩ : ∃ n, N = n + 1 := ⟨N - 1, by omega⟩
  refine ⟨?_, ?_, ?_, ?_, ?_, ?_, rfl, rfl⟩
  · rw [hall n]
  · rw [hall n]
  · rw [hall n]; simp
  · rw [hall n]; simp
  · intro i
    cases i with
    | zero =>
      have h0 : List.count req.url s.pending = 0 := List.count_eq_zero.mpr hnotmem
      simp [runStarts, h0]
    | succ m =>
      rw [hall m]
      have h1 : (pendingInsert req.url s.pending).count req.url = 1 := by
        simp [pendingInsert, hnotmem, List.count_append,
          List.count_eq_zero.mpr hnotmem]
      simp [h1]
  · simp only [fetchSettle]

/-- C1 witness: five concurrent requests to the same URL give one
upstream fetch, unique = 1 and duplicates = 4, and all five share the
settled result. -/
theorem C1_dedup_concurrent_witness :
    (runStarts cfg0 1 req0 5 st0).1.fetchCount = st0.fetchCount + 1 ∧
    (runStarts cfg0 1 req0 5 st0).1.unique = st0.unique + 1 ∧
    (runStarts cfg0 1 req0 5 st0).1.duplicates = st0.duplicates + (5 - 1) ∧
    (runStarts cfg0 1 req0 5 st0).2 =
      .ownerFetching req0.url :: List.replicate (5 - 1) (.waiting req0.url) ∧
    (∀ i, (runStarts cfg0 1 req0 i st0).1.pending.count req0.url ≤ 1) ∧
    (fetchSettle cfg0 2 req0.url (some res0) (runStarts cfg0 1 req0 5 st0).1).2 =
      some res0 ∧
    waiterFinish (some res0) = .fulfilled res0.status res0.headers res0.body ∧
    ownerFinish (some res0) = .fulfilled res0.status res0.headers res0.body :=
  C1_dedup_concurrent cfg0 req0 st0 1 2 res0 5 (by decide) rfl (by decide) (by decide)
    (by decide)

/-! Eviction lemmas. -/

theorem foldl_delEntry_all :
    ∀ (L : List String) (c : Cache), (∀ p ∈ c, p.1 ∈ L) →
      L.foldl delEntry c = [] := by
  intro L
  induction L with
  | nil =>
    intro c h
    have : c = [] := by
      cases c with
      | nil => rfl
      | cons p t => exact absurd (h p (by simp)) (by simp)
    simp [this]
  | cons k L ih =>
    intro c h
    simp only [List.foldl_cons]
    apply ih
    intro p hp
    simp only [delEntry, List.mem_filter] at hp
    obtain ⟨hmem, hne⟩ := hp
    have hpk : p.1 ≠ k := by simpa using hne
    have := h p hmem
    simp only [List.mem_cons] at this
    tauto

theorem evictLoop_spec (cfg : Config) :
    ∀ (keys : List String) (c : Cache),
      ∃ ks, ks <+: keys ∧
        (evictLoop cfg keys c).1 = ks.foldl delEntry c ∧
        (evictLoop cfg keys c).2 = ks.length ∧
        (∀ i, i < ks.length → pressure cfg ((ks.take i).foldl delEntry c) = true) ∧
        (pressure cfg (evictLoop cfg keys c).1 = false ∨ ks = keys) := by
  intro keys
  induction keys with
  | nil =>
    intro c
    exact ⟨[], List.nil_prefix, rfl, rfl, by simp, Or.inr rfl⟩
  | cons k rest ih =>
    intro c
    by_cases hp : pressure cfg c = true
    · obtain ⟨ks, hpre, h1, h2, h3, h4⟩ := ih (delEntry c k)
      refine ⟨k :: ks, ?_, ?_, ?_, ?_, ?_⟩
      · obtain ⟨t, ht⟩ := hpre
        exact ⟨t, by rw [← ht]; rfl⟩
      · simp only [evictLoop, if_pos hp, List.foldl_cons]
        exact h1
      · simp only [evictLoop, if_pos hp, List.length_cons]
        omega
      · intro i hi
        cases i with
        | zero => simp only [List.take_zero, List.foldl_nil]; exact hp
        | succ j =>
          simp only [List.take_succ_cons, List.foldl_cons]
          exact h3 j (by simpa using hi)
      · rcases h4 with h | h
        · left
          simpa only [evictLoop, if_pos hp] using h
        · right
          rw [h]
    · have hpf : pressure cfg c = false := by
        cases hq : pressure cfg c with
        | false => rfl
        | true => exact absurd hq hp
      refine ⟨[], List.nil_prefix, ?_, ?_, by simp, Or.inl ?_⟩
      · simp [evictLoop, hpf]
      · simp [evictLoop, hpf]
      · simp only [evictLoop, hpf]
        simp only [Bool.false_eq_true, if_false]
        exact hpf

theorem evictCache_count (cfg : Config) (c : Cache) :
    (evictCache cfg c).1.length < cfg.maxEntries ∨ (evictCache cfg c).1 = [] := by
  by_cases hp : pressure cfg c = true
  · obtain ⟨ks, hpre, h1, h2, h3, h4⟩ :=
      evictLoop_spec cfg ((sortedEntries c).map Prod.fst) c
    have hev : evictCache cfg c = evictLoop cfg ((sortedEntries c).map Prod.fst) c := by
      simp [evictCache, hp]
    rcases h4 with h | h
    · left
      rw [hev]
      simp only [pressure, Bool.or_eq_false_iff, decide_eq_false_iff_not] at h
      omega
    · right
      rw [hev, h1, h]
      apply foldl_delEntry_all
      intro p hp'
      have : p ∈ sortedEntries c := ((List.perm_insertionSort laLE c).mem_iff).mpr hp'
      exact List.mem_map_of_mem Prod.fst this
  · left
    have hpf : pressure cfg c = false := by
      cases hq : pressure cfg c with
      | false => rfl
      | true => exact absurd hq hp
    have hev : (evictCache cfg c).1 = c := by simp [evictCache, hpf]
    rw [hev]
    simp only [pressure, Bool.or_eq_false_iff, decide_eq_false_iff_not] at hpf
    omega

theorem evictLRU_httpCache (cfg : Config) (s : SysState) :
    (evictLRU cfg s).httpCache = (evictCache cfg s.httpCache).1 := by
  simp only [evictLRU]
  split <;> rfl

theorem evictLRU_no_pressure (cfg : Config) (s : SysState)
    (h : pressure cfg s.httpCache = false) : evictLRU cfg s = s := by
  simp [evictLRU, evictCache, h]

/-- C6: whenever eviction runs under an active pressure signal, the
entries removed are exactly a prefix of the store sorted ascending by
lastAccess (stable, so oldest first), each removal happens only while the
re-evaluated pressure condition still holds, and the loop stops only once
the pressure is clear or the store is empty. -/
theorem C6_evicts_oldest_first (cfg : Config) (c : Cache)
    (hp : pressure cfg c = true) :
    List.Sorted laLE (sortedEntries c) ∧
    (sortedEntries c).Perm c ∧
    ∃ ks, ks <+: (sortedEntries c).map Prod.fst ∧
      (evictCache cfg c).1 = ks.foldl delEntry c ∧
      (evictCache cfg c).2 = ks.length ∧
      (∀ i, i < ks.length → pressure cfg ((ks.take i).foldl delEntry c) = true) ∧
      (pressure cfg (evictCache cfg c).1 = false ∨ (evictCache cfg c).1 = []) := by
  have hsort : List.Sorted laLE (sortedEntries c) := List.sorted_insertionSort laLE c
  have hperm : (sortedEntries c).Perm c := List.perm_insertionSort laLE c
  obtain ⟨ks, hpre, h1, h2, h3, h4⟩ :=
    evictLoop_spec cfg ((sortedEntries c).map Prod.fst) c
  have hev : evictCache cfg c = evictLoop cfg ((sortedEntries c).map Prod.fst) c := by
    simp [evictCache, hp]
  refine ⟨hsort, hperm, ks, hpre, ?_, ?_, h3, ?_⟩
  · rw [hev]; exact h1
  · rw [hev]; exact h2
  · rcases h4 with h | h
    · left; rw [hev]; exact h
    · right
      rw [hev, h1, h]
      apply foldl_delEntry_all
      intro p hp'
      exact List.mem_map_of_mem Prod.fst (hperm.mem_iff.mpr hp')

/-- C6 witness: three entries with access times 20, 10, 30 under an entry
ceiling of 3: exactly the entry with lastAccess 10 is evicted. -/
theorem C6_evicts_oldest_first_witness :
    pressure cfgC6 cacheC6 = true ∧
    (evictCache cfgC6 cacheC6).1 =
      [("https://t/b", entryAt 20), ("https://t/c", entryAt 30)] ∧
    (evictCache cfgC6 cacheC6).2 = 1 ∧
    List.Sorted laLE (sortedEntries cacheC6) :=
  ⟨by decide, by decide, by decide,
   (C6_evicts_oldest_first cfgC6 cacheC6 (by decide)).1⟩

/-- C7: a put (the success path of a settling fetch: eviction check run
before the insertion) never leaves the store above both configured
ceilings simultaneously — indeed the entry count after any put is at
most maxEntries (for any prior state, hence after each put of any
sequence), so count and byte size can never both exceed their ceilings. -/
theorem C7_put_never_above_both (cfg : Config) (now : Nat) (key : String)
    (r : FetchResponse) (s : SysState)
    (hmax : 1 ≤ cfg.maxEntries)
    (hok : 200 ≤ r.status ∧ r.status < 400) :
    (fetchSettle cfg now key (some r) s).1.httpCache.length ≤ cfg.maxEntries ∧
    ¬(cfg.maxEntries < (fetchSettle cfg now key (some r) s).1.httpCache.length ∧
      cfg.maxSizeBytes <
        cacheSizeBytes (fetchSettle cfg now key (some r) s).1.httpCache) := by
  have hc : (fetchSettle cfg now key (some r) s).1.httpCache =
      setEntry (evictLRU cfg s).httpCache key
        { status := r.status, headers := r.headers,
          body := encodeB64 r.body, lastAccess := now } := by
    simp only [fetchSettle, if_pos hok]
  have hlen : (fetchSettle cfg now key (some r) s).1.httpCache.length ≤
      cfg.maxEntries := by
    rw [hc, evictLRU_httpCache]
    have hle := length_setEntry_le (evictCache cfg s.httpCache).1 key
      { status := r.status, headers := r.headers,
        body := encodeB64 r.body, lastAccess := now }
    rcases evictCache_count cfg s.httpCache with h | h
    · omega
    · rw [h] at hle ⊢
      simp only [List.length_nil] at hle
      omega
  refine ⟨hlen, ?_⟩
  intro hcon
  omega

/-- C7 witness: a put into the fresh store under the default ceilings. -/
theorem C7_put_never_above_both_witness :
    (fetchSettle cfg0 7 req0.url (some res0) st0).1.httpCache.length ≤ cfg0.maxEntries ∧
    ¬(cfg0.maxEntries < (fetchSettle cfg0 7 req0.url (some res0) st0).1.httpCache.length ∧
      cfg0.maxSizeBytes <
        cacheSizeBytes (fetchSettle cfg0 7 req0.url (some res0) st0).1.httpCache) :=
  C7_put_never_above_both cfg0 7 req0.url res0 st0 (by decide) (by decide)

/-! Persistence lemmas. -/

theorem lookup_append (a b : Cache) (k : String) :
    lookup (a ++ b) k =
      match lookup a k with
      | some e => some e
      | none => lookup b k := by
  induction a with
  | nil => simp [lookup]
  | cons p t ih =>
    by_cases h : p.1 = k
    · simp [lookup, h]
    · simp [lookup, h, ih]

theorem foldl_setEntry_disjoint (f : CacheEntry → CacheEntry) :
    ∀ (m acc : Cache),
      (∀ k ∈ m.map Prod.fst, lookup acc k = none) →
      (m.map Prod.fst).Nodup →
      m.foldl (fun c kv => setEntry c kv.1 (f kv.2)) acc =
        acc ++ m.map (fun kv => (kv.1, f kv.2)) := by
  intro m
  induction m with
  | nil => intro acc _ _; simp
  | cons kv t ih =>
    intro acc hdis hnd
    simp only [List.foldl_cons]
    have hk : lookup acc kv.1 = none := hdis kv.1 (by simp)
    rw [setEntry_of_not_mem acc kv.1 (f kv.2) hk]
    have hnd2 : (t.map Prod.fst).Nodup := by
      simp only [List.map_cons, List.nodup_cons] at hnd
      exact hnd.2
    have hknot : kv.1 ∉ t.map Prod.fst := by
      simp only [List.map_cons, List.nodup_cons] at hnd
      exact hnd.1
    have hdis2 : ∀ k ∈ t.map Prod.fst, lookup (acc ++ [(kv.1, f kv.2)]) k = none := by
      intro k hkmem
      rw [lookup_append]
      have h1 : lookup acc k = none := hdis k (by simp [hkmem])
      have h2 : lookup [(kv.1, f kv.2)] k = none := by
        have hne : kv.1 ≠ k := fun hh => hknot (hh ▸ hkmem)
        simp [lookup, hne]
      simp [h1, h2]
    rw [ih (acc ++ [(kv.1, f kv.2)]) hdis2 hnd2]
    simp

/-- C9 counterexample: with an entry ceiling of 1, flushing a dirty
one-entry store and loading the snapshot back yields an empty store, not
the same one entry — the load block runs evictLRU after parsing, and the
parsed store already sits at the entry ceiling. -/
theorem C9_roundtrip_counterexample :
    stC9.httpCache.length = 1 ∧ stC9.cacheDirty = true ∧
    (writeCacheToDisk cfgC9 stC9 none).2 = some stC9.httpCache ∧
    (loadCache cfgC9 99 (some stC9.httpCache) st0).httpCache = [] := by decide

/-- C9 (amended): flushing a dirty store of N entries and loading the
snapshot into a fresh process reproduces the same N entries with equal
key, status, headers and body — provided the loaded store activates
neither pressure signal (N below the entry ceiling and serialized size
below the size ceiling); otherwise the eviction pass that the load block
runs after parsing removes oldest entries.  lastAccess is preserved up to
the Date.now() default for falsy stored values (access-time drift is
ignored by the claim). -/
theorem C9_roundtrip_pressure_free (cfg : Config) (s sF : SysState)
    (snap0 : Option Cache) (now : Nat)
    (hdirty : s.cacheDirty = true) (hen : cfg.cacheEnabled = true)
    (hnodup : (s.httpCache.map Prod.fst).Nodup)
    (hfresh : sF.httpCache = [])
    (hnp : pressure cfg
      (s.httpCache.map (fun kv => (kv.1, loadEntry now kv.2))) = false) :
    (writeCacheToDisk cfg s snap0).2 = some s.httpCache ∧
    (loadCache cfg now (some s.httpCache) sF).httpCache =
      s.httpCache.map (fun kv => (kv.1, loadEntry now kv.2)) ∧
    (loadCache cfg now (some s.httpCache) sF).httpCache.map
        (fun kv => (kv.1, kv.2.status, kv.2.headers, kv.2.body)) =
      s.httpCache.map (fun kv => (kv.1, kv.2.status, kv.2.headers, kv.2.body)) ∧
    (loadCache cfg now (some s.httpCache) sF).httpCache.length =
      s.httpCache.length := by
  have hflush : (writeCacheToDisk cfg s snap0).2 = some s.httpCache := by
    simp [writeCacheToDisk, hdirty, hen]
  have hfold : s.httpCache.foldl
      (fun c kv => setEntry c kv.1 (loadEntry now kv.2)) sF.httpCache =
      s.httpCache.map (fun kv => (kv.1, loadEntry now kv.2)) := by
    rw [hfresh]
    have h := foldl_setEntry_disjoint (loadEntry now) s.httpCache []
      (by intro k _; rfl) hnodup
    simpa using h
  have hload : (loadCache cfg now (some s.httpCache) sF).httpCache =
      s.httpCache.map (fun kv => (kv.1, loadEntry now kv.2)) := by
    simp only [loadCache, hen, if_true]
    rw [hfold]
    rw [evictLRU_no_pressure cfg _ hnp]
  refine ⟨hflush, hload, ?_, ?_⟩
  · rw [hload, List.map_map]
    rfl
  · rw [hload, List.length_map]

/-- C9 witness: a clean two-entry round trip under the default ceilings
reproduces both entries exactly. -/
theorem C9_roundtrip_pressure_free_witness :
    (writeCacheToDisk cfg0 stRT none).2 = some stRT.httpCache ∧
    (loadCache cfg0 50 (some stRT.httpCache) st0).httpCache =
      stRT.httpCache.map (fun kv => (kv.1, loadEntry 50 kv.2)) ∧
    (loadCache cfg0 50 (some stRT.httpCache) st0).httpCache.map
        (fun kv => (kv.1, kv.2.status, kv.2.headers, kv.2.body)) =
      stRT.httpCache.map (fun kv => (kv.1, kv.2.status, kv.2.headers, kv.2.body)) ∧
    (loadCache cfg0 50 (some stRT.httpCache) st0).httpCache.length =
      stRT.httpCache.length :=
  C9_roundtrip_pressure_free cfg0 stRT st0 none 50 rfl rfl (by decide) rfl (by decide)

end PWCache
